import Mathlib

/-!
Verification of the simulation engine of SmartScanPuzzle (src/backend/engine.py)
over a shallow embedding in Lean 4.

Scalars: Python floats are embedded as exact rationals (`ℚ`); the source's
literal constants (200e-6, 0.37, 0.6, ...) are all decimal, hence rational.
The accuracy metric applies a square root, so it lives in `ℝ`.

Matrices and vectors: scipy sparse/numpy arrays become `Matrix (Fin _) (Fin _) ℚ`
and `Fin _ → ℚ`.  Out-of-range indexing (which raises `IndexError` in Python)
is modelled by total accessors (`colVal`, `nth`, `Tnat`, ...) returning 0; in
every claim settled here the indices involved are in range, so the fallback
value is never relied upon.

The engine's module-level `simulation` global is modelled by passing the
`Option LPBFSimulation` state explicitly.
-/

set_option maxHeartbeats 1000000

namespace SmartScan

/-! ### Physical constants (engine.py, `LPBFSimulation.__init__`, lines 33-50)

All are fixed literals; `M = N = size` throughout the source.  The source
stores `T_init`, `T_a`, `T_m` on `self`; they are constants, embedded here as
plain definitions. -/

def dx : ℚ := 200 / 1000000

def kt : ℚ := 24

def rho : ℚ := 7800

def Cp : ℚ := 460

def alpha : ℚ := kt / (rho * Cp)

def P : ℚ := 180 * (37 / 100)

def T_init : ℚ := 293

def T_a : ℚ := 293

def T_m : ℚ := 273 + 1427

def h : ℚ := 20

def v_s : ℚ := 3 / 5

def dt : ℚ := dx / v_s / 1

def F : ℚ := alpha * dt / dx / dx

def G : ℚ := alpha * P * dt / kt / dx / dx / dx

def H : ℚ := alpha * h * dt / kt / dx

/-! ### Grid geometry

`fine s` is the fine-grid side length `M*N = s²`, `cells s = (M*N)² = s⁴` the
number of fine cells, `dim s = (M*N)² + 2` the state dimension. -/

def fine (s : ℕ) : ℕ := s * s

def cells (s : ℕ) : ℕ := fine s * fine s

def dim (s : ℕ) : ℕ := cells s + 2

/-! ### Elementary operator (engine.py lines 52-71)

`Ax1` is `toeplitz([-2F, F, 0, ..., 0])` with the `[0,0]` and `[last,last]`
entries overwritten by `-F` (lines 53-56): entrywise, diagonal `-2F` (`-F` at
the two corners), first off-diagonals `F`, zero elsewhere.  (For `M*N = 1` the
Python list `[0]*(M*N-2)` is empty and `toeplitz` builds a 2×2 matrix; the
subsequent addition `Ax + Ay + eye((M*N)**2)` then raises a shape-mismatch
`ValueError`, so `size = 1` never constructs a simulation — see
`start_simulation` below.  This entrywise definition is faithful for
`M*N ≥ 2`, i.e. `size ≥ 2`, and is unused when `size = 0`.) -/

def Ax1 (s : ℕ) (i j : ℕ) : ℚ :=
  if i = j then (if i = 0 ∨ i = fine s - 1 then -F else -2 * F)
  else if i = j + 1 ∨ j = i + 1 then F else 0

/-- Entries of `A = Ax + Ay + eye - H*eye` (lines 57-60), the `cells × cells`
core operator, with `Ax = kron(eye(fine), Ax1)` and `Ay = kron(Ax1, eye(fine))`
in row-major flattening `k = row * fine + col`. -/
def Acore (s : ℕ) (k l : ℕ) : ℚ :=
  (if k / fine s = l / fine s then Ax1 s (k % fine s) (l % fine s) else 0)
  + (if k % fine s = l % fine s then Ax1 s (k / fine s) (l / fine s) else 0)
  + (if k = l then 1 - H else 0)

/-- The extended `(cells+2) × (cells+2)` operator (lines 62-71): the top block
rows are `[A - 0*F*eye | 0*F*ones | H*ones]` (the two correction terms are
exactly zero), the bottom two rows are `[zeros | eye(2)]`. -/
def A_ext (s : ℕ) : Matrix (Fin (dim s)) (Fin (dim s)) ℚ := fun i j =>
  if i.val < cells s then
    (if j.val < cells s then Acore s i.val j.val
     else if j.val = cells s then 0 else H)
  else
    (if j.val = i.val then 1 else 0)

/-! ### Scan-path index sets (engine.py lines 76-89) -/

/-- Row-zigzag source positions (lines 76-81): for each even `i < N`, the
cells `i*M*N + 1, ..., i*M*N + N` followed by `(i+1)*M*N + N, ..., (i+1)*M*N + 1`. -/
def setN1 (s : ℕ) : List ℕ :=
  ((List.range s).filter (fun i => i % 2 = 0)).flatMap fun i =>
    ((List.range s).map fun j => i * (s * s) + (j + 1)) ++
    ((List.range s).map fun j => (i + 1) * (s * s) + (s - j))

/-- Column-zigzag source positions (lines 82-85): for each odd `i = 2*t+1` in
`range(1, M+1, 2)`, the cells `j*M*N + i` for `j = 0..N-1` followed by
`j*M*N + i + 1` for `j = N-1..0`. -/
def setN2 (s : ℕ) : List ℕ :=
  (List.range ((s + 1) / 2)).flatMap fun t =>
    ((List.range s).map fun j => j * (s * s) + (2 * t + 1)) ++
    ((List.range s).map fun j => (s - 1 - j) * (s * s) + (2 * t + 1) + 1)

/-- Macro-tile base offsets (lines 87-89): `j*N + i*N*N*M + 1` for
`i, j ∈ range(M)`. -/
def setM (s : ℕ) : List ℕ :=
  (List.range s).flatMap fun i => (List.range s).map fun j => j * s + i * (s * s * s) + 1

/-- Total list lookup; Python raises `IndexError` out of range, which never
occurs in the settled claims. -/
def nth (L : List ℕ) (i : ℕ) : ℕ := L.getD i 0

/-- The `Ab` column index used for tile column `c` at loop iteration `k`
(0-based; the source's `pointer` is `k+1`, so `setN?[N**2 - pointer]` is
entry `s*s - 1 - k`): even columns use `setM[c] + setN1[...] - 1`, odd ones
`setM[c] + setN2[...] - 1` (lines 93-94). -/
def srcIdx (s k c : ℕ) : ℕ :=
  nth (setM s) c +
    (if c % 2 = 0 then nth (setN1 s) (s * s - 1 - k) else nth (setN2 s) (s * s - 1 - k)) - 1

/-- Total column accessor: `colVal M r v` is `M[r, v]`, with 0 out of range
(Python would raise; in-range in all uses below). -/
def colVal {m n : ℕ} (M : Matrix (Fin m) (Fin n) ℚ) (r : Fin m) (v : ℕ) : ℚ :=
  if hv : v < n then M r ⟨v, hv⟩ else 0

/-! ### Precompute loop (engine.py lines 73-74, 91-98) -/

/-- One iteration of the precompute loop (lines 92-96): using the current
`Ab`, add `G * Ab[:, srcIdx]` into every column of `Bb`, then `Ab := Ab @ A`. -/
def stepOp (s : ℕ)
    (p : Matrix (Fin (dim s)) (Fin (dim s)) ℚ × Matrix (Fin (dim s)) (Fin (s * s)) ℚ)
    (k : ℕ) :
    Matrix (Fin (dim s)) (Fin (dim s)) ℚ × Matrix (Fin (dim s)) (Fin (s * s)) ℚ :=
  (p.1 * A_ext s, fun r c => p.2 r c + G * colVal p.1 r (srcIdx s k c.val))

/-- The loop `for i in range(1, N**2 + 1)` starting from `Ab = eye`,
`Bb = zeros` (lines 73-74, 91-96). -/
def precomp (s : ℕ) :
    Matrix (Fin (dim s)) (Fin (dim s)) ℚ × Matrix (Fin (dim s)) (Fin (s * s)) ℚ :=
  (List.range (s * s)).foldl (stepOp s) (1, 0)

/-- The projection operator `Cb` (lines 100-103): `eye - ones/(M*M*N*N)` on the
fine block (`M*M*N*N = cells`), zero on the two boundary rows/columns. -/
def CbMat (s : ℕ) : Matrix (Fin (dim s)) (Fin (dim s)) ℚ := fun i j =>
  if i.val < cells s ∧ j.val < cells s then
    (if i = j then 1 else 0) - 1 / (cells s : ℚ)
  else 0

/-! ### The simulation session -/

/-- Result dictionary of `make_move`: `{"success": ..., "message": ...}`. -/
structure MoveResult where
  success : Bool
  message : String
  deriving Repr, DecidableEq

/-- The session state held by `LPBFSimulation` (`self.N = self.M = size`;
`self.T_init` etc. are the constants above). -/
structure LPBFSimulation where
  N : ℕ
  Ab : Matrix (Fin (dim N)) (Fin (dim N)) ℚ
  Bb : Matrix (Fin (dim N)) (Fin (N * N)) ℚ
  Cb : Matrix (Fin (dim N)) (Fin (dim N)) ℚ
  T : Fin (dim N) → ℚ
  clicked : Finset ℤ

/-- `LPBFSimulation.__init__` after the operator construction (lines 29-106):
`T = [T_init, ..., T_init, T_a, T_a]`, `clicked = set()`. -/
def LPBFSimulation.init (size : ℕ) : LPBFSimulation :=
  { N := size
    Ab := (precomp size).1
    Bb := (precomp size).2
    Cb := CbMat size
    T := fun i => if i.val < cells size then T_init else T_a
    clicked := ∅ }

/-- Column `v` of `Bb` as a vector (`self.Bb[:, index - 1].toarray().flatten()`). -/
def Bcol (sim : LPBFSimulation) (v : ℕ) : Fin (dim sim.N) → ℚ :=
  fun r => colVal sim.Bb r v

/-- `LPBFSimulation.make_move` (lines 108-117): reject if already clicked,
then if out of `[1, N*M]`; otherwise `T := Ab @ T + Bb[:, index-1]` and add
`index` to `clicked`. -/
def LPBFSimulation.make_move (sim : LPBFSimulation) (index : ℤ) :
    LPBFSimulation × MoveResult :=
  if index ∈ sim.clicked then (sim, ⟨false, "Tile already selected"⟩)
  else if index < 1 ∨ (sim.N * sim.N : ℤ) < index then (sim, ⟨false, "Invalid tile index"⟩)
  else
    ({ sim with
        T := sim.Ab.mulVec sim.T + Bcol sim (index - 1).toNat
        clicked := insert index sim.clicked },
     ⟨true, "Move accepted"⟩)

/-- Total state-vector accessor: `Tnat sim k = sim.T[k]` (0 out of range). -/
def Tnat (sim : LPBFSimulation) (k : ℕ) : ℚ :=
  if hk : k < dim sim.N then sim.T ⟨k, hk⟩ else 0

/-- Total accessor for `Ab` entries. -/
def AbAt (sim : LPBFSimulation) (r c : ℕ) : ℚ :=
  if hb : r < dim sim.N ∧ c < dim sim.N then sim.Ab ⟨r, hb.1⟩ ⟨c, hb.2⟩ else 0

/-- Total accessor for `Bb` entries. -/
def BbAt (sim : LPBFSimulation) (r c : ℕ) : ℚ :=
  if hb : r < dim sim.N ∧ c < sim.N * sim.N then sim.Bb ⟨r, hb.1⟩ ⟨c, hb.2⟩ else 0

/-- `LPBFSimulation.get_current_map` (lines 119-135): reshape the first
`cells` entries of `T` to `fine × fine` row-major, then average each `N × N`
block (`block.mean()` is the block sum over `N*N`). -/
def LPBFSimulation.get_current_map (sim : LPBFSimulation) :
    Matrix (Fin sim.N) (Fin sim.N) ℚ := fun i j =>
  (∑ a ∈ Finset.range sim.N, ∑ b ∈ Finset.range sim.N,
      Tnat sim ((i.val * sim.N + a) * fine sim.N + (j.val * sim.N + b)))
    / ((sim.N : ℚ) * (sim.N : ℚ))

/-- `LPBFSimulation.is_complete` (lines 137-138): `len(clicked) >= N * M`. -/
def LPBFSimulation.is_complete (sim : LPBFSimulation) : Bool :=
  decide (sim.N * sim.N ≤ sim.clicked.card)

/-- `np.linalg.norm` of a vector: the Euclidean norm. -/
noncomputable def npNorm {n : ℕ} (v : Fin n → ℚ) : ℝ :=
  Real.sqrt (∑ i, ((v i : ℝ)) ^ 2)

/-- `LPBFSimulation.get_accuracy` (lines 140-141):
`sqrt(norm(Cb @ T) ** 2) / T_m / M / N`. -/
noncomputable def LPBFSimulation.get_accuracy (sim : LPBFSimulation) : ℝ :=
  Real.sqrt (npNorm (sim.Cb.mulVec sim.T) ^ 2) / (T_m : ℝ) / (sim.N : ℝ) / (sim.N : ℝ)

/-! ### Module-level interface (engine.py lines 5-26)

The process-wide `simulation` global is the explicit `Option LPBFSimulation`
argument. -/

/-- `start_simulation(size)` (lines 7-10).  The constructor performs no size
validation.  Traced behaviour of `LPBFSimulation(size)`:
* `size ≥ 2`: the construction above runs and returns the session.
* `size = 0`: every loop body is empty (`range(0)`, `range(1, 1)`), the core
  operator is never used, and the degenerate session — `Ab = eye(2)`,
  `Bb` a `2×0` zero matrix, `T = [T_a, T_a]`, empty map — is exactly
  `LPBFSimulation.init 0`, so construction succeeds.
* `size = 1`: `diagonals` on line 53 is `[-2F, F]` (the pad `[0]*(M*N-2)` is
  empty), so `Ax1` is 2×2, `Ax`/`Ay` are 2×2, and `Ax + Ay + eye(1)` on
  line 59 raises `ValueError` (inconsistent shapes): an unhandled exception,
  modelled as `none`.
* `size = -1`: `M*N = 1`, same shape mismatch as `size = 1`: `none`.
* `size ≤ -2`: `setN1` is empty (`range(0, N)` with `N < 0`), and
  `setN1[N**2 - pointer]` on line 93 raises `IndexError`: `none`. -/
def start_simulation (size : ℤ) : Option LPBFSimulation :=
  if size < 0 ∨ size = 1 then none else some (LPBFSimulation.init size.toNat)

/-- `make_move(index)` (lines 12-16): `{"success": False, "message":
"No active simulation"}` when the global is `None`, else the method. -/
def make_move (g : Option LPBFSimulation) (index : ℤ) :
    Option LPBFSimulation × MoveResult :=
  match g with
  | none => (none, ⟨false, "No active simulation"⟩)
  | some sim => ((sim.make_move index).1, (sim.make_move index).2)

/-- The status dictionary (lines 22-26). -/
structure Status where
  n : ℕ
  temperatureMap : Matrix (Fin n) (Fin n) ℚ
  complete : Bool
  accuracy : ℝ

/-- `get_status()` (lines 18-26): `{}` (modelled as `none`) when the global is
`None`, else the three derived quantities. -/
noncomputable def get_status (g : Option LPBFSimulation) : Option Status :=
  match g with
  | none => none
  | some sim => some ⟨sim.N, sim.get_current_map, sim.is_complete, sim.get_accuracy⟩

/-! ### Reachability and invariants -/

/-- States reachable by constructing a session and applying any sequence of
`make_move` calls (successful or rejected). -/
inductive Reachable : LPBFSimulation → Prop where
  | init : ∀ s : ℕ, Reachable (LPBFSimulation.init s)
  | move : ∀ (sim : LPBFSimulation) (index : ℤ), Reachable sim →
      Reachable (sim.make_move index).1

/-- Folding a list of tile selections through `make_move`. -/
def runMoves (sim : LPBFSimulation) (L : List ℤ) : LPBFSimulation :=
  L.foldl (fun t i => (t.make_move i).1) sim

/-- A matrix on the extended state space whose bottom two rows (the
ambient-slot rows) are identity rows. -/
def BottomId (s : ℕ) (M : Matrix (Fin (dim s)) (Fin (dim s)) ℚ) : Prop :=
  ∀ i j : Fin (dim s), cells s ≤ i.val → M i j = if i = j then 1 else 0

/-- Invariant of size-2 sessions driving claim C10: `Ab` has identity boundary
rows, `Bb`'s first boundary row is `G` exactly at tile column 3 (tile 4) and
its second boundary row is zero, and the two ambient slots hold `293`
(respectively `293 + G` once tile 4 was selected). -/
def Inv2 (sim : LPBFSimulation) : Prop :=
  sim.N = 2 ∧
  (∀ c : ℕ, AbAt sim 16 c = if c = 16 then 1 else 0) ∧
  (∀ c : ℕ, AbAt sim 17 c = if c = 17 then 1 else 0) ∧
  (∀ c : ℕ, c < 4 → BbAt sim 16 c = if c = 3 then G else 0) ∧
  (∀ c : ℕ, c < 4 → BbAt sim 17 c = 0) ∧
  Tnat sim 17 = 293 ∧
  Tnat sim 16 = 293 + (if (4 : ℤ) ∈ sim.clicked then G else 0)

/-! ### Helper lemmas -/

lemma Tnat_eq (sim : LPBFSimulation) (k : ℕ) (hk : k < dim sim.N) :
    Tnat sim k = sim.T ⟨k, hk⟩ := dif_pos hk

lemma AbAt_eq (sim : LPBFSimulation) (r c : ℕ) (hr : r < dim sim.N) (hc : c < dim sim.N) :
    AbAt sim r c = sim.Ab ⟨r, hr⟩ ⟨c, hc⟩ := dif_pos ⟨hr, hc⟩

lemma BbAt_eq (sim : LPBFSimulation) (r c : ℕ) (hr : r < dim sim.N) (hc : c < sim.N * sim.N) :
    BbAt sim r c = sim.Bb ⟨r, hr⟩ ⟨c, hc⟩ := dif_pos ⟨hr, hc⟩

lemma colVal_eq {m n : ℕ} (M : Matrix (Fin m) (Fin n) ℚ) (r : Fin m) (v : ℕ) (hv : v < n) :
    colVal M r v = M r ⟨v, hv⟩ := dif_pos hv

/-- The first component of the precompute fold right-multiplies by `A_ext`
once per list element. -/
lemma foldl_stepOp_fst (s : ℕ) (L : List ℕ)
    (p : Matrix (Fin (dim s)) (Fin (dim s)) ℚ × Matrix (Fin (dim s)) (Fin (s * s)) ℚ) :
    (L.foldl (stepOp s) p).1 = p.1 * A_ext s ^ L.length := by
  induction L generalizing p with
  | nil => simp
  | cons a L ih =>
      rw [List.foldl_cons, ih, List.length_cons, pow_succ']
      show p.1 * A_ext s * (A_ext s ^ L.length) = _
      rw [mul_assoc]

/-- After the loop, `Ab = A_ext ^ (s*s)`: identity right-multiplied by the
elementary operator `tileCount = s²` times. -/
lemma precomp_fst (s : ℕ) : (precomp s).1 = A_ext s ^ (s * s) := by
  rw [precomp, foldl_stepOp_fst, List.length_range, one_mul]

/-- A successful move: the checks pass, the state vector is replaced by
`Ab · T + Bb[:, index-1]`, and `index` is inserted into the selected set. -/
lemma make_move_spec (sim : LPBFSimulation) (index : ℤ)
    (h1 : 1 ≤ index) (h2 : index ≤ (sim.N * sim.N : ℤ)) (h3 : index ∉ sim.clicked) :
    sim.make_move index =
      ({ sim with
          T := sim.Ab.mulVec sim.T + Bcol sim (index - 1).toNat
          clicked := insert index sim.clicked },
       ⟨true, "Move accepted"⟩) := by
  rw [LPBFSimulation.make_move, if_neg h3, if_neg (by push_neg; omega)]

/-- `make_move` never changes the grid size. -/
lemma make_move_N (sim : LPBFSimulation) (index : ℤ) :
    ((sim.make_move index).1).N = sim.N := by
  rw [LPBFSimulation.make_move]
  split_ifs <;> rfl

/-- `make_move` never changes the operators. -/
lemma make_move_Ab (sim : LPBFSimulation) (index : ℤ) :
    ∀ r c : ℕ, AbAt ((sim.make_move index).1) r c = AbAt sim r c := by
  rw [LPBFSimulation.make_move]
  split_ifs <;> intro r c <;> rfl

lemma make_move_Bb (sim : LPBFSimulation) (index : ℤ) :
    ∀ r c : ℕ, BbAt ((sim.make_move index).1) r c = BbAt sim r c := by
  rw [LPBFSimulation.make_move]
  split_ifs <;> intro r c <;> rfl

lemma runMoves_N (sim : LPBFSimulation) (L : List ℤ) : (runMoves sim L).N = sim.N := by
  induction L generalizing sim with
  | nil => rfl
  | cons a L ih => rw [runMoves, List.foldl_cons, ← runMoves, ih, make_move_N]

/-- One step preserves "every clicked index is in `[1, N²]`". -/
lemma clicked_range_step (sim : LPBFSimulation) (index : ℤ)
    (hc : ∀ i ∈ sim.clicked, 1 ≤ i ∧ i ≤ (sim.N * sim.N : ℤ)) :
    ∀ i ∈ ((sim.make_move index).1).clicked, 1 ≤ i ∧ i ≤ (sim.N * sim.N : ℤ) := by
  rw [LPBFSimulation.make_move]
  split_ifs with hmem hrange
  · exact hc
  · exact hc
  · intro i hi
    rcases Finset.mem_insert.mp hi with rfl | hi
    · push_neg at hrange; omega
    · exact hc i hi

/-- In every reachable state, the selected set only holds indices in `[1, N²]`. -/
lemma reachable_clicked_range (sim : LPBFSimulation) (hr : Reachable sim) :
    ∀ i ∈ sim.clicked, 1 ≤ i ∧ i ≤ (sim.N * sim.N : ℤ) := by
  induction hr with
  | init s => intro i hi; simp [LPBFSimulation.init] at hi
  | move sim index _ ih =>
      have := clicked_range_step sim index ih
      simpa [make_move_N] using this

lemma bottomId_one (s : ℕ) : BottomId s 1 := by
  intro i j _
  simp [Matrix.one_apply]

/-- Right-multiplying by `A_ext` preserves identity boundary rows, because the
bottom two rows of `A_ext` are themselves identity rows (lines 67-71). -/
lemma bottomId_mul (s : ℕ) (M : Matrix (Fin (dim s)) (Fin (dim s)) ℚ)
    (hM : BottomId s M) : BottomId s (M * A_ext s) := by
  intro i j hi
  rw [Matrix.mul_apply]
  have hrow : ∀ k, M i k = if i = k then 1 else 0 := fun k => hM i k hi
  simp only [hrow, ite_mul, one_mul, zero_mul]
  rw [Finset.sum_ite_eq]
  simp only [Finset.mem_univ, if_true]
  rw [A_ext]
  have : ¬ i.val < cells s := not_lt.mpr hi
  rw [if_neg this]
  rcases eq_or_ne i j with rfl | hne
  · simp
  · rw [if_neg (by simpa [Fin.ext_iff, eq_comm] using hne), if_neg hne]

lemma bottomId_pow (s k : ℕ) : BottomId s (A_ext s ^ k) := by
  induction k with
  | zero => simpa using bottomId_one s
  | succ k ih => rw [pow_succ]; exact bottomId_mul s _ ih

/-- Multiplying a vector by a matrix row that is an identity row returns the
corresponding vector entry. -/
lemma mulVec_id_row {n : ℕ} (M : Matrix (Fin n) (Fin n) ℚ) (v : Fin n → ℚ) (r : Fin n)
    (hM : ∀ j, M r j = if r = j then 1 else 0) : M.mulVec v r = v r := by
  simp only [Matrix.mulVec, Matrix.dotProduct, hM, ite_mul, one_mul, zero_mul]
  rw [Finset.sum_ite_eq]
  simp

lemma colVal_bottom (s : ℕ) (M : Matrix (Fin (dim s)) (Fin (dim s)) ℚ)
    (hM : BottomId s M) (r : Fin (dim s)) (hr : cells s ≤ r.val) (v : ℕ) :
    colVal M r v = if v = r.val then 1 else 0 := by
  by_cases hv : v < dim s
  · rw [colVal_eq M r v hv, hM r ⟨v, hv⟩ hr]
    simp [Fin.ext_iff, eq_comm]
  · rw [colVal, dif_neg hv]
    have : v ≠ r.val := fun hvr => hv (hvr ▸ r.isLt)
    simp [this]

lemma AbAt_of_bottomId (sim : LPBFSimulation) (hb : BottomId sim.N sim.Ab) (r c : ℕ)
    (hr1 : cells sim.N ≤ r) (hr2 : r < dim sim.N) :
    AbAt sim r c = if c = r then 1 else 0 := by
  by_cases hc : c < dim sim.N
  · rw [AbAt_eq sim r c hr2 hc, hb ⟨r, hr2⟩ ⟨c, hc⟩ hr1]
    simp [Fin.ext_iff, eq_comm]
  · rw [AbAt, dif_neg (by tauto)]
    have : c ≠ r := fun hcr => hc (hcr ▸ hr2)
    simp [this]

lemma init_Ab_bottomId (s : ℕ) : BottomId s ((LPBFSimulation.init s).Ab) := by
  show BottomId s (precomp s).1
  rw [precomp_fst]
  exact bottomId_pow s (s * s)

/-- On a boundary row `r`, the `Bb` accumulated by the precompute loop is `G`
times the number of iterations whose source column index equals `r` (because
every intermediate `Ab` has identity boundary rows). -/
lemma foldl_stepOp_snd_bottom (s : ℕ) (L : List ℕ)
    (p : Matrix (Fin (dim s)) (Fin (dim s)) ℚ × Matrix (Fin (dim s)) (Fin (s * s)) ℚ)
    (hp : BottomId s p.1) (r : Fin (dim s)) (hr : cells s ≤ r.val) (c : Fin (s * s)) :
    (L.foldl (stepOp s) p).2 r c =
      p.2 r c + G * (L.countP (fun k => decide (srcIdx s k c.val = r.val)) : ℕ) := by
  induction L generalizing p with
  | nil => simp
  | cons a L ih =>
      rw [List.foldl_cons, ih (stepOp s p a) (bottomId_mul s p.1 hp)]
      have hcol : colVal p.1 r (srcIdx s a c.val) = if srcIdx s a c.val = r.val then 1 else 0 :=
        colVal_bottom s p.1 hp r hr _
      show p.2 r c + G * colVal p.1 r (srcIdx s a c.val) + G * _ = _
      rw [hcol, List.countP_cons]
      by_cases hsk : srcIdx s a c.val = r.val
      · simp only [hsk, decide_True, if_true]
        push_cast
        ring
      · simp only [hsk, decide_False, if_false]
        push_cast
        ring

/-- Row 16 (the first ambient slot) of the precomputed `Bb` for `size = 2`:
`G` at tile column 3, zero elsewhere.  (Iteration `k = 1` uses source column
`srcIdx 2 1 3 = 16`, the first boundary column of `Ab`.) -/
lemma init2_Bb16 (c : ℕ) (hc : c < 4) :
    BbAt (LPBFSimulation.init 2) 16 c = if c = 3 then G else 0 := by
  have h16 : (16 : ℕ) < dim 2 := by decide
  have hc4 : c < 2 * 2 := hc
  have hr : cells 2 ≤ (⟨16, h16⟩ : Fin (dim 2)).val := by
    show cells 2 ≤ 16
    decide
  rw [BbAt_eq _ 16 c h16 hc4]
  show (precomp 2).2 ⟨16, h16⟩ ⟨c, hc4⟩ = _
  rw [precomp, foldl_stepOp_snd_bottom 2 _ (1, 0) (bottomId_one 2) ⟨16, h16⟩ hr ⟨c, hc4⟩]
  dsimp only
  interval_cases c
  · rw [show List.countP (fun k => decide (srcIdx 2 k 0 = 16)) (List.range (2 * 2)) = 0 from by decide]
    norm_num
  · rw [show List.countP (fun k => decide (srcIdx 2 k 1 = 16)) (List.range (2 * 2)) = 0 from by decide]
    norm_num
  · rw [show List.countP (fun k => decide (srcIdx 2 k 2 = 16)) (List.range (2 * 2)) = 0 from by decide]
    norm_num
  · rw [show List.countP (fun k => decide (srcIdx 2 k 3 = 16)) (List.range (2 * 2)) = 1 from by decide]
    norm_num

/-- Row 17 (the second ambient slot) of the precomputed `Bb` for `size = 2` is
identically zero: no iteration uses source column 17. -/
lemma init2_Bb17 (c : ℕ) (hc : c < 4) : BbAt (LPBFSimulation.init 2) 17 c = 0 := by
  have h17 : (17 : ℕ) < dim 2 := by decide
  have hc4 : c < 2 * 2 := hc
  have hr : cells 2 ≤ (⟨17, h17⟩ : Fin (dim 2)).val := by
    show cells 2 ≤ 17
    decide
  rw [BbAt_eq _ 17 c h17 hc4]
  show (precomp 2).2 ⟨17, h17⟩ ⟨c, hc4⟩ = _
  rw [precomp, foldl_stepOp_snd_bottom 2 _ (1, 0) (bottomId_one 2) ⟨17, h17⟩ hr ⟨c, hc4⟩]
  dsimp only
  interval_cases c
  · rw [show List.countP (fun k => decide (srcIdx 2 k 0 = 17)) (List.range (2 * 2)) = 0 from by decide]
    norm_num
  · rw [show List.countP (fun k => decide (srcIdx 2 k 1 = 17)) (List.range (2 * 2)) = 0 from by decide]
    norm_num
  · rw [show List.countP (fun k => decide (srcIdx 2 k 2 = 17)) (List.range (2 * 2)) = 0 from by decide]
    norm_num
  · rw [show List.countP (fun k => decide (srcIdx 2 k 3 = 17)) (List.range (2 * 2)) = 0 from by decide]
    norm_num

lemma init2_Inv2 : Inv2 (LPBFSimulation.init 2) := by
  refine ⟨rfl, ?_, ?_, init2_Bb16, init2_Bb17, ?_, ?_⟩
  · intro c
    exact AbAt_of_bottomId _ (init_Ab_bottomId 2) 16 c (by decide) (by decide)
  · intro c
    exact AbAt_of_bottomId _ (init_Ab_bottomId 2) 17 c (by decide) (by decide)
  · rw [Tnat_eq _ 17 (by decide)]
    show (if (17 : ℕ) < cells 2 then T_init else T_a) = 293
    norm_num [cells, fine, T_a]
  · rw [Tnat_eq _ 16 (by decide)]
    show (if (16 : ℕ) < cells 2 then T_init else T_a)
        = 293 + (if (4 : ℤ) ∈ (∅ : Finset ℤ) then G else 0)
    norm_num [cells, fine, T_a]

/-- Turn the `AbAt`-level identity-row fact into a `Fin`-level row fact. -/
lemma row_id_of_AbAt (sim : LPBFSimulation) (r : ℕ) (hrlt : r < dim sim.N)
    (hA : ∀ c : ℕ, AbAt sim r c = if c = r then 1 else 0) :
    ∀ j : Fin (dim sim.N), sim.Ab ⟨r, hrlt⟩ j =
      if (⟨r, hrlt⟩ : Fin (dim sim.N)) = j then 1 else 0 := by
  intro j
  have hj := hA j.val
  rw [AbAt_eq sim r j.val hrlt j.isLt] at hj
  simp only [Fin.eta] at hj
  rw [hj]
  by_cases hv : j.val = r
  · rw [if_pos hv, if_pos (Fin.ext hv.symm)]
  · rw [if_neg hv, if_neg (fun he => hv (by rw [← he]))]

/-- A `make_move` call (accepted or rejected) preserves the size-2 boundary
invariant. -/
lemma inv2_step (sim : LPBFSimulation) (index : ℤ) (hI : Inv2 sim) :
    Inv2 ((sim.make_move index).1) := by
  obtain ⟨hN, hA16, hA17, hB16, hB17, hT17, hT16⟩ := hI
  by_cases hmem : index ∈ sim.clicked
  · rw [LPBFSimulation.make_move, if_pos hmem]
    exact ⟨hN, hA16, hA17, hB16, hB17, hT17, hT16⟩
  by_cases hrange : index < 1 ∨ (sim.N * sim.N : ℤ) < index
  · rw [LPBFSimulation.make_move, if_neg hmem, if_pos hrange]
    exact ⟨hN, hA16, hA17, hB16, hB17, hT17, hT16⟩
  push_neg at hrange
  obtain ⟨h1, h2⟩ := hrange
  rw [hN] at h2
  rw [make_move_spec sim index h1 (by rw [hN]; exact h2) hmem]
  have h17lt : (17 : ℕ) < dim sim.N := by rw [hN]; decide
  have h16lt : (16 : ℕ) < dim sim.N := by rw [hN]; decide
  have hvlt : (index - 1).toNat < sim.N * sim.N := by rw [hN]; omega
  have hvlt4 : (index - 1).toNat < 4 := by
    have hv := hvlt
    rw [hN] at hv
    omega
  set sim' : LPBFSimulation :=
    { sim with
        T := sim.Ab.mulVec sim.T + Bcol sim (index - 1).toNat
        clicked := insert index sim.clicked } with hsim'
  show Inv2 sim'
  refine ⟨hN, hA16, hA17, hB16, hB17, ?_, ?_⟩
  · rw [Tnat_eq sim' 17 h17lt]
    show (sim.Ab.mulVec sim.T + Bcol sim (index - 1).toNat) ⟨17, h17lt⟩ = 293
    rw [Pi.add_apply,
      mulVec_id_row sim.Ab sim.T ⟨17, h17lt⟩ (row_id_of_AbAt sim 17 h17lt hA17)]
    have hTv : sim.T ⟨17, h17lt⟩ = 293 := by
      rw [← Tnat_eq sim 17 h17lt]
      exact hT17
    have hBv : Bcol sim (index - 1).toNat ⟨17, h17lt⟩ = 0 := by
      show colVal sim.Bb ⟨17, h17lt⟩ (index - 1).toNat = 0
      rw [colVal_eq sim.Bb _ _ hvlt, ← BbAt_eq sim 17 (index - 1).toNat h17lt hvlt]
      exact hB17 _ hvlt4
    rw [hTv, hBv]
    norm_num
  · rw [Tnat_eq sim' 16 h16lt]
    show (sim.Ab.mulVec sim.T + Bcol sim (index - 1).toNat) ⟨16, h16lt⟩
        = 293 + (if (4 : ℤ) ∈ insert index sim.clicked then G else 0)
    rw [Pi.add_apply,
      mulVec_id_row sim.Ab sim.T ⟨16, h16lt⟩ (row_id_of_AbAt sim 16 h16lt hA16)]
    have hTv : sim.T ⟨16, h16lt⟩ = 293 + (if (4 : ℤ) ∈ sim.clicked then G else 0) := by
      rw [← Tnat_eq sim 16 h16lt]
      exact hT16
    have hBv : Bcol sim (index - 1).toNat ⟨16, h16lt⟩
        = if (index - 1).toNat = 3 then G else 0 := by
      show colVal sim.Bb ⟨16, h16lt⟩ (index - 1).toNat = _
      rw [colVal_eq sim.Bb _ _ hvlt, ← BbAt_eq sim 16 (index - 1).toNat h16lt hvlt]
      exact hB16 _ hvlt4
    rw [hTv, hBv]
    by_cases h4 : index = 4
    · subst h4
      rw [if_neg hmem, if_pos (by omega : ((4 : ℤ) - 1).toNat = 3),
        if_pos (Finset.mem_insert_self 4 sim.clicked)]
      ring
    · have hv3 : (index - 1).toNat ≠ 3 := by omega
      have hne : ¬((4 : ℤ) = index) := by omega
      rw [if_neg hv3]
      have hmem4 : ((4 : ℤ) ∈ insert index sim.clicked) ↔ ((4 : ℤ) ∈ sim.clicked) := by
        rw [Finset.mem_insert]
        exact ⟨fun hor => hor.elim (fun he => absurd he hne) id, Or.inr⟩
      rw [if_congr hmem4 rfl rfl]
      ring

/-- Every reachable size-2 state satisfies the boundary invariant. -/
lemma reachable_inv2 (sim : LPBFSimulation) (hr : Reachable sim) (h2 : sim.N = 2) :
    Inv2 sim := by
  revert h2
  induction hr with
  | init s =>
      intro h2
      have hs : s = 2 := h2
      subst hs
      exact init2_Inv2
  | move sim index _ ih =>
      intro h2
      exact inv2_step sim index (ih (by rw [← make_move_N sim index]; exact h2))

/-- The freshly constructed map is constantly the initial temperature: every
fine cell holds `T_init = 293` (and the two ambient slots are never read by
the map), so each `N × N` block average is `293`. -/
lemma init_map_const (s : ℕ) (hs : 1 ≤ s) (i j : Fin s) :
    (LPBFSimulation.init s).get_current_map i j = 293 := by
  show (∑ a ∈ Finset.range s, ∑ b ∈ Finset.range s,
      Tnat (LPBFSimulation.init s) ((i.val * s + a) * fine s + (j.val * s + b)))
      / ((s : ℚ) * (s : ℚ)) = 293
  have hval : ∀ a ∈ Finset.range s, (∑ b ∈ Finset.range s,
      Tnat (LPBFSimulation.init s) ((i.val * s + a) * fine s + (j.val * s + b)))
      = s * 293 := by
    intro a ha
    have hcell : ∀ b ∈ Finset.range s,
        Tnat (LPBFSimulation.init s) ((i.val * s + a) * fine s + (j.val * s + b)) = 293 := by
      intro b hb
      rw [Finset.mem_range] at hb
      rw [Finset.mem_range] at ha
      have hrow : i.val * s + a < s * s := by
        calc i.val * s + a < i.val * s + s := by omega
          _ = (i.val + 1) * s := by ring
          _ ≤ s * s := Nat.mul_le_mul_right s i.isLt
      have hcol : j.val * s + b < s * s := by
        calc j.val * s + b < j.val * s + s := by omega
          _ = (j.val + 1) * s := by ring
          _ ≤ s * s := Nat.mul_le_mul_right s j.isLt
      have hlt : (i.val * s + a) * fine s + (j.val * s + b) < dim s := by
        have hstep : (i.val * s + a) * (s * s) + (j.val * s + b)
            < (i.val * s + a) * (s * s) + s * s := by omega
        have hmul : (i.val * s + a + 1) * (s * s) ≤ (s * s) * (s * s) :=
          Nat.mul_le_mul_right (s * s) hrow
        have : (i.val * s + a) * (s * s) + (j.val * s + b) < (s * s) * (s * s) := by
          calc (i.val * s + a) * (s * s) + (j.val * s + b)
              < (i.val * s + a) * (s * s) + s * s := hstep
            _ = (i.val * s + a + 1) * (s * s) := by ring
            _ ≤ (s * s) * (s * s) := hmul
        show (i.val * s + a) * (s * s) + (j.val * s + b) < s * s * (s * s) + 2
        omega
      rw [Tnat_eq (LPBFSimulation.init s) _ hlt]
      show (if (i.val * s + a) * fine s + (j.val * s + b) < cells s then T_init else T_a) = 293
      split
      · norm_num [T_init]
      · norm_num [T_a]
    rw [Finset.sum_congr rfl hcell, Finset.sum_const, Finset.card_range, nsmul_eq_mul]
  rw [Finset.sum_congr rfl hval, Finset.sum_const, Finset.card_range, nsmul_eq_mul]
  have hsne : (s : ℚ) ≠ 0 := Nat.cast_ne_zero.mpr (by omega)
  field_simp
  ring

/-- Applying a nodup list of fresh in-range tile indices inserts exactly those
indices into the selected set. -/
lemma runMoves_clicked (L : List ℤ) : ∀ sim : LPBFSimulation, L.Nodup →
    (∀ x ∈ L, 1 ≤ x ∧ x ≤ (sim.N * sim.N : ℤ)) → (∀ x ∈ L, x ∉ sim.clicked) →
    (runMoves sim L).clicked = sim.clicked ∪ L.toFinset := by
  induction L with
  | nil => intro sim _ _ _; simp [runMoves]
  | cons a L ih =>
      intro sim hnd hrange hdisj
      have ha1 := (hrange a (List.mem_cons_self a L)).1
      have ha2 := (hrange a (List.mem_cons_self a L)).2
      have hamem := hdisj a (List.mem_cons_self a L)
      have hanotin : a ∉ L := (List.nodup_cons.mp hnd).1
      rw [runMoves, List.foldl_cons, ← runMoves]
      have hcl : ((sim.make_move a).1).clicked = insert a sim.clicked := by
        rw [make_move_spec sim a ha1 ha2 hamem]
      have hNe : ((sim.make_move a).1).N = sim.N := make_move_N sim a
      rw [ih ((sim.make_move a).1) (List.nodup_cons.mp hnd).2
          (fun x hx => by rw [hNe]; exact hrange x (List.mem_cons_of_mem a hx))
          (fun x hx => by
            rw [hcl]
            intro hins
            rcases Finset.mem_insert.mp hins with rfl | hold
            · exact hanotin hx
            · exact hdisj x (List.mem_cons_of_mem a hx) hold),
        hcl, List.toFinset_cons, Finset.insert_union, Finset.union_insert]

lemma make_move_clicked_card (sim : LPBFSimulation) (index : ℤ) :
    ((sim.make_move index).1).clicked.card ≤ sim.clicked.card + 1 := by
  rw [LPBFSimulation.make_move]
  split_ifs
  · exact Nat.le_succ _
  · exact Nat.le_succ _
  · exact Finset.card_insert_le _ _

/-- Each move adds at most one element to the selected set. -/
lemma runMoves_card_le (L : List ℤ) : ∀ sim : LPBFSimulation,
    (runMoves sim L).clicked.card ≤ sim.clicked.card + L.length := by
  induction L with
  | nil => intro sim; simp [runMoves]
  | cons a L ih =>
      intro sim
      rw [runMoves, List.foldl_cons, ← runMoves]
      calc (runMoves ((sim.make_move a).1) L).clicked.card
          ≤ ((sim.make_move a).1).clicked.card + L.length := ih _
        _ ≤ sim.clicked.card + 1 + L.length := by
            have := make_move_clicked_card sim a
            omega
        _ = sim.clicked.card + (a :: L).length := by
            rw [List.length_cons]
            ring

/-! ### Claim theorems -/

/-- C1: for every initialized session and every tile index in `[1, size²]`
that is not yet selected, `make_move` succeeds, replaces the state vector by
`Ab · T + Bb[:, tileIndex-1]`, and adds the index to the selected set. -/
theorem c1_move_success (sim : LPBFSimulation) (_hr : Reachable sim) (index : ℤ)
    (h1 : 1 ≤ index) (h2 : index ≤ (sim.N * sim.N : ℤ)) (h3 : index ∉ sim.clicked) :
    (sim.make_move index).2 = ⟨true, "Move accepted"⟩ ∧
    (sim.make_move index).1 =
      { sim with
          T := sim.Ab.mulVec sim.T + Bcol sim (index - 1).toNat
          clicked := insert index sim.clicked } := by
  rw [make_move_spec sim index h1 h2 h3]
  exact ⟨rfl, rfl⟩

/-- Witness for C1: tile 1 on a fresh size-2 session. -/
theorem c1_move_success_witness :
    ((LPBFSimulation.init 2).make_move 1).2 = ⟨true, "Move accepted"⟩ :=
  (c1_move_success (LPBFSimulation.init 2) (Reachable.init 2) 1 (by decide)
    (by decide) (by decide)).1

/-- C2: after the precomputation loop, the composite transition operator `Ab`
equals `A_ext ^ tileCount` with `tileCount = s²` (the loop starts from the
identity and right-multiplies by `A_ext` exactly `s²` times). -/
theorem c2_Ab_power (s : ℕ) : (LPBFSimulation.init s).Ab = A_ext s ^ (s * s) :=
  precomp_fst s

/-- Witness for C2 at `s = 2`. -/
theorem c2_Ab_power_witness : (LPBFSimulation.init 2).Ab = A_ext 2 ^ (2 * 2) :=
  c2_Ab_power 2

/-- C3: in every reachable session, an out-of-range tile index is rejected
with the `OutOfRange` result (`"Invalid tile index"`), an already-selected
index with the `AlreadySelected` result (`"Tile already selected"`), and in
both cases the session (state vector and selected set) is unchanged. -/
theorem c3_rejections (sim : LPBFSimulation) (hr : Reachable sim) (index : ℤ) :
    (index < 1 ∨ (sim.N * sim.N : ℤ) < index →
      sim.make_move index = (sim, ⟨false, "Invalid tile index"⟩)) ∧
    (index ∈ sim.clicked →
      sim.make_move index = (sim, ⟨false, "Tile already selected"⟩)) := by
  constructor
  · intro hout
    have hmem : index ∉ sim.clicked := by
      intro hc
      obtain ⟨hb1, hb2⟩ := reachable_clicked_range sim hr index hc
      rcases hout with hlo | hhi
      · omega
      · exact not_lt.mpr hb2 hhi
    rw [LPBFSimulation.make_move, if_neg hmem, if_pos hout]
  · intro hmem
    rw [LPBFSimulation.make_move, if_pos hmem]

/-- Witness for C3: tile 0 on a fresh size-2 session is rejected unchanged. -/
theorem c3_rejections_witness :
    (LPBFSimulation.init 2).make_move 0
      = (LPBFSimulation.init 2, ⟨false, "Invalid tile index"⟩) :=
  (c3_rejections (LPBFSimulation.init 2) (Reachable.init 2) 0).1 (Or.inl (by decide))

/-- C4 counterexample: `start_simulation 0` (a size `< 1`) does not fail with
an invalid-configuration error — it constructs a (degenerate) session. -/
theorem c4_counterexample : start_simulation 0 = some (LPBFSimulation.init 0) := rfl

/-- C4 amended: the constructor performs no size validation: `size = 0`
succeeds with a degenerate empty session, and negative sizes abort with an
unhandled library exception (shape mismatch or `IndexError`), not a
structured `InvalidConfiguration` result. -/
theorem c4_no_validation :
    start_simulation 0 = some (LPBFSimulation.init 0) ∧
    (∀ z : ℤ, z < 0 → start_simulation z = none) := by
  refine ⟨rfl, ?_⟩
  intro z hz
  rw [start_simulation, if_pos (Or.inl hz)]

/-- Witness for C4 amended at `size = -3`. -/
theorem c4_no_validation_witness :
    (-3 : ℤ) < 0 ∧ start_simulation (-3) = none :=
  ⟨by decide, c4_no_validation.2 (-3) (by decide)⟩

/-- C5 counterexample: at the valid size `s = 1` the constructor crashes
(`Ax + Ay + eye(1)` is a shape mismatch), so no `1×1` map is returned. -/
theorem c5_counterexample : start_simulation 1 = none := rfl

/-- C5 amended: for every size `s ≥ 2`, `start_simulation` returns the
session whose block-averaged map is the constant initial temperature `293`
in every entry (`size = 1` raises instead of producing a map). -/
theorem c5_init_map (s : ℕ) (hs : 2 ≤ s) :
    start_simulation (s : ℤ) = some (LPBFSimulation.init s) ∧
    ∀ i j : Fin s, (LPBFSimulation.init s).get_current_map i j = 293 := by
  constructor
  · rw [start_simulation, if_neg (by omega : ¬((s : ℤ) < 0 ∨ (s : ℤ) = 1))]
    simp
  · intro i j
    exact init_map_const s (by omega) i j

/-- Witness for C5 amended at `s = 2`, cell (0, 1). -/
theorem c5_init_map_witness :
    2 ≤ 2 ∧ (LPBFSimulation.init 2).get_current_map (0 : Fin 2) (1 : Fin 2) = 293 :=
  ⟨by decide, (c5_init_map 2 (by decide)).2 0 1⟩

/-- C6: in every reachable state, `get_accuracy` equals
`‖Cb · state‖₂ / T_m / s²` and is non-negative. -/
theorem c6_accuracy (sim : LPBFSimulation) (_hr : Reachable sim) :
    sim.get_accuracy
      = npNorm (sim.Cb.mulVec sim.T) / (T_m : ℝ) / ((sim.N : ℝ) * (sim.N : ℝ)) ∧
    0 ≤ sim.get_accuracy := by
  have hnn : 0 ≤ npNorm (sim.Cb.mulVec sim.T) := Real.sqrt_nonneg _
  unfold LPBFSimulation.get_accuracy
  rw [Real.sqrt_sq hnn]
  constructor
  · rw [div_div]
  · have hT : (0 : ℝ) ≤ (T_m : ℝ) := by norm_num [T_m]
    exact div_nonneg (div_nonneg (div_nonneg hnn hT) (Nat.cast_nonneg _)) (Nat.cast_nonneg _)

/-- Witness for C6 on a fresh size-2 session. -/
theorem c6_accuracy_witness : 0 ≤ (LPBFSimulation.init 2).get_accuracy :=
  (c6_accuracy (LPBFSimulation.init 2) (Reachable.init 2)).2

/-- C7: `is_complete` holds exactly when the selected set has at least
`tileCount = s²` elements; after `s²` distinct successful moves covering every
tile it is true, and after any shorter sequence of moves it is false. -/
theorem c7_completion (s : ℕ) (L : List ℤ) :
    ((runMoves (LPBFSimulation.init s) L).is_complete = true ↔
        s * s ≤ (runMoves (LPBFSimulation.init s) L).clicked.card) ∧
    (L.Nodup → L.toFinset = Finset.Icc 1 ((s : ℤ) * (s : ℤ)) →
        (runMoves (LPBFSimulation.init s) L).is_complete = true) ∧
    (L.length < s * s → (runMoves (LPBFSimulation.init s) L).is_complete = false) := by
  have hN : (runMoves (LPBFSimulation.init s) L).N = s := runMoves_N _ _
  have hiff : (runMoves (LPBFSimulation.init s) L).is_complete = true ↔
      s * s ≤ (runMoves (LPBFSimulation.init s) L).clicked.card := by
    simp only [LPBFSimulation.is_complete, hN]
    exact decide_eq_true_iff
  refine ⟨hiff, ?_, ?_⟩
  · intro hnd hfin
    have hrange : ∀ x ∈ L,
        1 ≤ x ∧ x ≤ ((LPBFSimulation.init s).N * (LPBFSimulation.init s).N : ℤ) := by
      intro x hx
      have hxI : x ∈ Finset.Icc (1 : ℤ) ((s : ℤ) * (s : ℤ)) := by
        rw [← hfin]
        exact List.mem_toFinset.mpr hx
      rw [Finset.mem_Icc] at hxI
      exact hxI
    have hclicked := runMoves_clicked L (LPBFSimulation.init s) hnd hrange
      (fun x _ => by simp [LPBFSimulation.init])
    rw [hiff, hclicked]
    have hempty : (LPBFSimulation.init s).clicked = (∅ : Finset ℤ) := rfl
    rw [hempty, Finset.empty_union, hfin, ← Nat.cast_mul, Int.card_Icc]
    omega
  · intro hlen
    have hcard := runMoves_card_le L (LPBFSimulation.init s)
    have hempty : (LPBFSimulation.init s).clicked.card = 0 := rfl
    have hlt : ¬(s * s ≤ (runMoves (LPBFSimulation.init s) L).clicked.card) := by omega
    simp only [LPBFSimulation.is_complete, hN]
    exact decide_eq_false hlt

/-- Witness for C7: the four tiles of a size-2 session in order complete it. -/
theorem c7_completion_witness :
    ([1, 2, 3, 4] : List ℤ).Nodup ∧
    (runMoves (LPBFSimulation.init 2) [1, 2, 3, 4]).is_complete = true :=
  ⟨by decide, (c7_completion 2 [1, 2, 3, 4]).2.1 (by decide) (by decide)⟩

/-- C8: with no active session, `get_status` returns the empty result and the
module-level `make_move` returns the `NotInitialized`-style failure result;
neither raises. -/
theorem c8_uninitialized :
    get_status none = none ∧
    ∀ index : ℤ, make_move none index = (none, ⟨false, "No active simulation"⟩) :=
  ⟨rfl, fun _ => rfl⟩

/-- C9: the engine is deterministic — the same tile sequence applied to a
fresh session of the same size produces the same state (hence the same state
vector) and the same temperature map. -/
theorem c9_determinism (s : ℕ) (L₁ L₂ : List ℤ) (hL : L₁ = L₂) :
    runMoves (LPBFSimulation.init s) L₁ = runMoves (LPBFSimulation.init s) L₂ ∧
    HEq ((runMoves (LPBFSimulation.init s) L₁).get_current_map)
        ((runMoves (LPBFSimulation.init s) L₂).get_current_map) := by
  subst hL
  exact ⟨rfl, HEq.rfl⟩

/-- Witness for C9 at `s = 2`, sequence `[1, 2]`. -/
theorem c9_determinism_witness :
    runMoves (LPBFSimulation.init 2) [1, 2] = runMoves (LPBFSimulation.init 2) [1, 2] :=
  (c9_determinism 2 [1, 2] [1, 2] rfl).1

/-- C10 counterexample: in the reachable size-2 state after selecting tile 4,
the first ambient slot (entry 16) is `293 + G ≠ 293`: the boundary row of
`Bb` is not zero at tile column 3. -/
theorem c10_counterexample : Tnat ((LPBFSimulation.init 2).make_move 4).1 16 ≠ 293 := by
  have hre : Reachable ((LPBFSimulation.init 2).make_move 4).1 :=
    Reachable.move (LPBFSimulation.init 2) 4 (Reachable.init 2)
  have hI : Inv2 ((LPBFSimulation.init 2).make_move 4).1 :=
    reachable_inv2 _ hre (make_move_N (LPBFSimulation.init 2) 4)
  have h4 : (4 : ℤ) ∈ (((LPBFSimulation.init 2).make_move 4).1).clicked := by
    rw [make_move_spec (LPBFSimulation.init 2) 4 (by decide) (by decide) (by decide)]
    exact Finset.mem_insert_self 4 _
  rw [hI.2.2.2.2.2.2, if_pos h4]
  have hG : G ≠ 0 := by norm_num [G, alpha, P, dt, dx, kt, rho, Cp, v_s]
  intro hcontra
  apply hG
  linarith

/-- C10 amended: the bottom two rows of every power of `A_ext` do form an
identity block, so the `Ab · T` part of a move preserves the two ambient
slots; but the boundary rows of `Bb` are not all zero.  For size 2 the second
slot stays `293` in every reachable state, while the first equals `293`
until tile 4 is selected and `293 + G` afterwards. -/
theorem c10_amended (sim : LPBFSimulation) (hr : Reachable sim) (h2 : sim.N = 2) :
    Tnat sim 17 = 293 ∧
    Tnat sim 16 = 293 + (if (4 : ℤ) ∈ sim.clicked then G else 0) ∧
    (∀ (s k : ℕ) (i j : Fin (dim s)), cells s ≤ i.val →
      (A_ext s ^ k) i j = if i = j then 1 else 0) := by
  obtain ⟨_, _, _, _, _, h17, h16⟩ := reachable_inv2 sim hr h2
  exact ⟨h17, h16, fun s k i j hi => bottomId_pow s k i j hi⟩

/-- Witness for C10 amended on a fresh size-2 session. -/
theorem c10_amended_witness : Tnat (LPBFSimulation.init 2) 17 = 293 :=
  (c10_amended (LPBFSimulation.init 2) (Reachable.init 2) rfl).1

end SmartScan
